import Mathlib

/-
  Verification of the ShortStory plugin: the story-text parser
  (ShortStoryParser.cpp) and the playback state machine
  (ShortStorySubsystem.cpp), shallowly embedded in Lean.

  Modelling conventions:
  * FString is modelled as List Char (abbreviated Str);
  * float is modelled as ℚ (the algorithms only add, compare and scale
    configured constants, which the embedding mirrors exactly);
  * TMap with FString keys is modelled as an association list with the
    case-insensitive key equality Unreal's FString operator== uses;
  * out-parameters become record fields, bool returns become Bool/Option.
-/

abbrev Str := List Char

/-- FChar::IsWhitespace (the standard C whitespace set). -/
def isWSChar (c : Char) : Bool :=
  c = ' ' || c = '\t' || c = '\n' || c = '\r' || c = '\x0b' || c = '\x0c'

/-- FString::TrimStart. -/
def trimStart (s : Str) : Str := s.dropWhile isWSChar

/-- FString::TrimEnd. -/
def trimEnd (s : Str) : Str := (s.reverse.dropWhile isWSChar).reverse

/-- FString::TrimStartAndEnd. -/
def trimStartAndEnd (s : Str) : Str := trimEnd (trimStart s)

/-- FString::ToLower (per-character lowering). -/
def toLowerStr (s : Str) : Str := s.map Char.toLower

/-- `startsWithStr p s` is FString::StartsWith: does `s` begin with `p`? -/
def startsWithStr : Str → Str → Bool
  | [], _ => true
  | _ :: _, [] => false
  | a :: ps, b :: rest => a = b && startsWithStr ps rest

/-- FString::EndsWith. -/
def endsWithStr (p s : Str) : Bool := startsWithStr p.reverse s.reverse

/-- Case-insensitive string equality (ESearchCase::IgnoreCase). -/
def eqIC (a b : Str) : Bool := toLowerStr a == toLowerStr b

/-- Case-insensitive StartsWith. -/
def startsWithIC (p s : Str) : Bool := startsWithStr (toLowerStr p) (toLowerStr s)

/-- FString::Split at the first occurrence of a single-character
    delimiter, returning the parts before and after it. -/
def splitFirstAt (d : Char) : Str → Option (Str × Str)
  | [] => none
  | c :: rest =>
    if c = d then some ([], rest)
    else
      match splitFirstAt d rest with
      | some (a, b) => some (c :: a, b)
      | none => none

/-- Worker for single-character ParseIntoArray: accumulates the current
    field (reversed) and cuts at each delimiter occurrence. -/
def splitCharKeepAux (d : Char) : Str → Str → List Str
  | acc, [] => [acc.reverse]
  | acc, c :: rest =>
    if c = d then acc.reverse :: splitCharKeepAux d [] rest
    else splitCharKeepAux d (c :: acc) rest

/-- FString::ParseIntoArray with a single-character delimiter and
    InCullEmpty = false (empty input yields no fields, as in Unreal). -/
def splitCharKeep (d : Char) (s : Str) : List Str :=
  if s.isEmpty then [] else splitCharKeepAux d [] s

/-- FString::ParseIntoArray with a single-character delimiter and
    InCullEmpty = true. -/
def splitCharCull (d : Char) (s : Str) : List Str :=
  (splitCharKeep d s).filter (fun f => !f.isEmpty)

/-- Find the first occurrence of the substring `d`, returning the part
    before it and the part after it. -/
def findSplitSub (d : Str) : Str → Option (Str × Str)
  | [] => none
  | c :: rest =>
    if startsWithStr d (c :: rest) then some ([], (c :: rest).drop d.length)
    else
      match findSplitSub d rest with
      | some (a, b) => some (c :: a, b)
      | none => none

/-- Worker for multi-character ParseIntoArray; `fuel` bounds the number
    of cuts (each cut consumes at least one character, so the input
    length is always enough fuel). -/
def splitSubKeepAux (d : Str) : ℕ → Str → List Str
  | 0, s => [s]
  | fuel + 1, s =>
    match findSplitSub d s with
    | some (a, b) => a :: splitSubKeepAux d fuel b
    | none => [s]

/-- FString::ParseIntoArray with a multi-character delimiter and
    InCullEmpty = false. -/
def splitSubKeep (d s : Str) : List Str :=
  if d.isEmpty || s.isEmpty then [] else splitSubKeepAux d s.length s

/-- Line-ending characters recognised by FString::ParseIntoArrayLines. -/
def isLineBreakChar (c : Char) : Bool := c = '\n' || c = '\r'

/-- Worker: split at every line-ending character, keeping empties. -/
def splitLinesAux : Str → Str → List Str
  | acc, [] => [acc.reverse]
  | acc, c :: rest =>
    if isLineBreakChar c then acc.reverse :: splitLinesAux [] rest
    else splitLinesAux (c :: acc) rest

/-- FString::ParseIntoArrayLines (culls empty lines, so CRLF pairs do
    not produce spurious fields). -/
def splitIntoLines (s : Str) : List Str :=
  (splitLinesAux [] s).filter (fun l => !l.isEmpty)

def isDigitChar (c : Char) : Bool := '0' ≤ c && c ≤ '9'

def digitVal (c : Char) : ℕ := c.toNat - '0'.toNat

/-- Read a run of decimal digits into an accumulator, returning the
    value and the unread remainder. -/
def readDigitsAux : Str → ℕ → ℕ × Str
  | [], acc => (acc, [])
  | c :: rest, acc =>
    if isDigitChar c then readDigitsAux rest (acc * 10 + digitVal c)
    else (acc, c :: rest)

/-- Read a fractional digit run with a decreasing scale. -/
def readFracAux : Str → ℚ → ℚ → ℚ
  | [], acc, _ => acc
  | c :: rest, acc, scale =>
    if isDigitChar c then readFracAux rest (acc + scale * (digitVal c : ℚ)) (scale / 10)
    else acc

/-- Model of FCString::Atof (C `atof`): skip leading whitespace, an
    optional sign, decimal digits and an optional fractional part;
    any trailing junk is ignored and unparsable input yields 0.
    Exponent suffixes are not modelled; no verified claim depends on
    the numeric value this returns. -/
def atofQ (s : Str) : ℚ :=
  let s1 := trimStart s
  let signAndRest : Bool × Str :=
    match s1 with
    | '-' :: rest => (true, rest)
    | '+' :: rest => (false, rest)
    | _ => (false, s1)
  let ip := readDigitsAux signAndRest.2 0
  let fp : ℚ :=
    match ip.2 with
    | '.' :: rest => readFracAux rest 0 (1 / 10)
    | _ => 0
  let v : ℚ := (ip.1 : ℚ) + fp
  if signAndRest.1 then -v else v

/- ===== Document model (ShortStoryStructs.h) ===== -/

/-- EStoryLineAnimation. -/
inductive Anim
  | typewriter
  | leftToRight
  | paragraph
  | topDown
  | wordRain
  | snake
  deriving DecidableEq, Repr

/-- EStorySpeed. -/
inductive Speed
  | standard
  | fast
  | slow
  deriving DecidableEq, Repr

/-- EStoryPauseDuration. -/
inductive PauseKind
  | none
  | short
  | standard
  | long
  | lineBreak
  | wait
  deriving DecidableEq, Repr

/-- EStoryEffect. -/
inductive Effect
  | none
  | shakeLow
  | shakeMed
  | shakeHigh
  | storm
  deriving DecidableEq, Repr

/-- EStoryTransition. -/
inductive Transition
  | instant
  | fade
  | crossfade
  deriving DecidableEq, Repr

/-- EStoryTimedEventType. -/
inductive TimedEventType
  | sfx
  | vfx
  | wait
  | backgroundChange
  deriving DecidableEq, Repr

/-- FVector2D. -/
structure Vec2 where
  x : ℚ := 0
  y : ℚ := 0
  deriving DecidableEq, Repr

/-- FStoryAnimationTiming with the field initialisers from the header. -/
structure Timing where
  perLetter : ℚ := 1 / 25
  extraAtSpace : ℚ := 2 / 25
  extraAtPeriod : ℚ := 3 / 10
  extraAtComma : ℚ := 1 / 5
  blockDuration : ℚ := 2
  extraAtColon : ℚ := 2 / 5
  deriving DecidableEq, Repr

/-- FStoryTimedEvent. -/
structure StoryTimedEvent where
  eventType : TimedEventType := .sfx
  startTime : ℚ := 0
  duration : ℚ := 0
  assetPath : Str := []
  deriving DecidableEq, Repr

/-- FStoryLine. -/
structure StoryLine where
  text : Str := []
  animationType : Anim := .typewriter
  speed : Speed := .standard
  pauseDuration : PauseKind := .none
  effect : Effect := .none
  positionOffset : Vec2 := {}
  deriving DecidableEq, Repr

/-- FStoryScreen; the TSoftObjectPtr background asset is modelled as an
    optional asset-path string. -/
structure StoryScreen where
  name : Str := []
  backgroundAsset : Option Str := none
  backgroundPath : Str := []
  transitionType : Transition := .fade
  lines : List StoryLine := []
  timedEvents : List StoryTimedEvent := []
  deriving DecidableEq, Repr

/-- FShortStory. -/
structure ShortStory where
  title : Str := []
  ost : Str := []
  screens : List StoryScreen := []
  sourceFileName : Str := []
  deriving DecidableEq, Repr

/-- FShortStory::IsValid. -/
def ShortStory.isValid (s : ShortStory) : Bool :=
  !s.title.isEmpty && !s.screens.isEmpty

/- ===== Keyword tables (ShortStoryParser.cpp) ===== -/

/-- UShortStoryParser::ParseAnimationType (the trailing duplicate
    slow/fast branches in the source are unreachable and collapse into
    the first condition). -/
def parseAnimationType (s : Str) : Option Anim :=
  let l := toLowerStr s
  if l == ("typewriter").toList || l == ("standard").toList || l == ("alone").toList
      || l == ("slow").toList || l == ("fast").toList then some .typewriter
  else if l == ("left_to_right").toList || l == ("lefttoright").toList then some .leftToRight
  else if l == ("top_down").toList || l == ("topdown").toList then some .topDown
  else if l == ("word_rain").toList || l == ("wordrain").toList then some .wordRain
  else if l == ("snake").toList then some .snake
  else if l == ("paragraph").toList || l == ("fade_in").toList || l == ("fadein").toList then
    some .paragraph
  else none

/-- UShortStoryParser::ParsePauseDuration. -/
def parsePauseDuration (s : Str) : Option PauseKind :=
  let l := toLowerStr s
  if l == ("0").toList || l == ("none").toList then some .none
  else if l == ("short").toList then some .short
  else if l == ("standard").toList then some .standard
  else if l == ("long").toList then some .long
  else none

/-- UShortStoryParser::ParseEffectType. -/
def parseEffectType (s : Str) : Option Effect :=
  let l := toLowerStr s
  if l == ("none").toList then some .none
  else if l == ("shake_low").toList || l == ("shakelow").toList then some .shakeLow
  else if l == ("shake_med").toList || l == ("shakemed").toList
      || l == ("shake_medium").toList then some .shakeMed
  else if l == ("shake_high").toList || l == ("shakehigh").toList then some .shakeHigh
  else if l == ("storm").toList then some .storm
  else none

/-- UShortStoryParser::ParseTransitionType. -/
def parseTransitionType (s : Str) : Option Transition :=
  let l := toLowerStr s
  if l == ("instant").toList then some .instant
  else if l == ("fade").toList then some .fade
  else if l == ("crossfade").toList then some .crossfade
  else none

/-- UShortStoryParser::ParseSpeed. -/
def parseSpeed (s : Str) : Option Speed :=
  let l := toLowerStr s
  if l == ("standard").toList then some .standard
  else if l == ("fast").toList then some .fast
  else if l == ("slow").toList then some .slow
  else none

/-- UShortStoryParser::ParsePositionOffset. -/
def parsePositionOffset (s : Str) : Option Vec2 :=
  match splitCharKeep ',' s with
  | [a, b] => some { x := atofQ (trimStartAndEnd a), y := atofQ (trimStartAndEnd b) }
  | _ => none

/-- UShortStoryParser::CleanLine. -/
def cleanLine (l : Str) : Str :=
  let c := trimStartAndEnd l
  if startsWithStr (("#").toList) c then [] else c

/-- UShortStoryParser::IsSectionHeader, returning the section name when
    the line is a header ([SPACER] is reserved as a content token). -/
def sectionHeaderName (l : Str) : Option Str :=
  if startsWithStr (("[").toList) l && endsWithStr (("]").toList) l then
    let name := trimStartAndEnd ((l.drop 1).take (l.length - 2))
    if eqIC name (("SPACER").toList) then none
    else if name.isEmpty then none
    else some name
  else none

/- ===== Metadata map (TMap<FString, FString>) ===== -/

abbrev SMap := List (Str × Str)

/-- TMap::Find with FString keys (case-insensitive key equality). -/
def mapFindIC (m : SMap) (k : Str) : Option Str :=
  match m with
  | [] => none
  | (a, v) :: rest => if eqIC a k then some v else mapFindIC rest k

/-- TMap::Add with FString keys (replaces an existing entry). -/
def mapAddIC (m : SMap) (k v : Str) : SMap :=
  match m with
  | [] => [(k, v)]
  | (a, w) :: rest => if eqIC a k then (k, v) :: rest else (a, w) :: mapAddIC rest k v

/-- UShortStoryParser::ParseMetadataLine: `key = value`, with lines
    containing a pipe rejected; returns the updated map on success. -/
def parseMetadataLine (line : Str) (m : SMap) : Option SMap :=
  if line.contains '|' then none
  else
    match splitFirstAt '=' line with
    | some (k0, v0) =>
      let k := trimStartAndEnd k0
      let v := trimStartAndEnd v0
      if !k.isEmpty && !v.isEmpty then some (mapAddIC m k v) else none
    | none => none

/- ===== Pipe-delimited attribute lines ===== -/

/-- The diagnostic messages ParseLineAttributes can write to OutError. -/
inductive AttrErr
  | tooFewFields (n : ℕ)
  | emptyText
  | unknownAnimationType (s : Str)
  | unknownSpeed (s : Str)
  | unknownPauseDuration (s : Str)
  | unknownEffectType (s : Str)
  | invalidOffset (s : Str)
  | unknownParam (s : Str)
  | invalidParamShape (s : Str)
  deriving DecidableEq, Repr

/-- The out-parameters of UShortStoryParser::ParseLineAttributes, plus
    its bool return value (`ok`).  `err` holds the last value written to
    OutError (the source keeps overwriting OutError and still returns
    true after a bad optional field). -/
structure AttrResult where
  ok : Bool
  text : Str
  anim : Anim
  speed : Speed
  pause : PauseKind
  effect : Effect
  offset : Vec2
  err : Option AttrErr
  deriving DecidableEq, Repr

/-- One iteration of the optional-parameter loop in ParseLineAttributes
    (fields at index 2 and beyond). -/
def applyParamField (acc : AttrResult) (field : Str) : AttrResult :=
  match splitFirstAt '=' field with
  | some (k0, v0) =>
    let k := toLowerStr (trimStartAndEnd k0)
    let v := trimStartAndEnd v0
    if k == ("speed").toList then
      match parseSpeed v with
      | some sp => { acc with speed := sp }
      | none => { acc with err := some (.unknownSpeed v) }
    else if k == ("pause").toList then
      match parsePauseDuration v with
      | some p => { acc with pause := p }
      | none => { acc with err := some (.unknownPauseDuration v) }
    else if k == ("effect").toList then
      match parseEffectType v with
      | some e => { acc with effect := e }
      | none => { acc with err := some (.unknownEffectType v) }
    else if k == ("offset").toList then
      match parsePositionOffset v with
      | some o => { acc with offset := o }
      | none => { acc with err := some (.invalidOffset v) }
    else { acc with err := some (.unknownParam k) }
  | none => { acc with err := some (.invalidParamShape field) }

/-- The trimmed pipe-separated fields of an attribute line. -/
def attrFields (line : Str) : List Str :=
  (splitCharKeep '|' line).map trimStartAndEnd

/-- UShortStoryParser::ParseLineAttributes.  On the two hard failures
    (fewer than 2 fields, empty text) the unset out-parameters keep
    their caller-side default values. -/
def parseLineAttributes (line : Str) : AttrResult :=
  let fields := attrFields line
  if fields.length < 2 then
    { ok := false, text := [], anim := .typewriter, speed := .standard, pause := .none,
      effect := .none, offset := {}, err := some (.tooFewFields fields.length) }
  else
    let text0 := fields.getD 0 []
    let text := if eqIC (trimStartAndEnd text0) (("[SPACER]").toList) then (" ").toList else text0
    if text.isEmpty then
      { ok := false, text := text, anim := .typewriter, speed := .standard, pause := .none,
        effect := .none, offset := {}, err := some .emptyText }
    else
      let animErr : Anim × Option AttrErr :=
        match parseAnimationType (fields.getD 1 []) with
        | some a => (a, none)
        | none => (.typewriter, some (.unknownAnimationType (fields.getD 1 [])))
      let init : AttrResult :=
        { ok := true, text := text, anim := animErr.1, speed := .standard, pause := .none,
          effect := .none, offset := {}, err := animErr.2 }
      (fields.drop 2).foldl applyParamField init

/- ===== Text wrapping (UShortStoryParser::SplitTextByLength) ===== -/

/-- The backward scan `for (i = MaxLen; i >= 0; --i)` looking for the
    nearest space at or before the limit (indices are always in range
    at the call sites, so the out-of-range default never matters). -/
def findSpaceDown (s : Str) : ℕ → Option ℕ
  | 0 => if s.getD 0 '\x00' = ' ' then some 0 else none
  | i + 1 => if s.getD (i + 1) '\x00' = ' ' then some (i + 1) else findSpaceDown s i

/-- The while-loop of SplitTextByLength.  `fuel` bounds the number of
    iterations; every iteration removes at least one character, so the
    initial length is always enough fuel and the fuel-0 branch mirrors
    the loop-exit behaviour. -/
def splitLoop (maxLen : ℕ) : ℕ → Str → List Str
  | 0, remaining => if remaining.isEmpty then [] else [trimStartAndEnd remaining]
  | fuel + 1, remaining =>
    if remaining.length > maxLen then
      let splitIndex := (findSpaceDown remaining maxLen).getD maxLen
      trimStartAndEnd (remaining.take splitIndex)
        :: splitLoop maxLen fuel (trimStart (remaining.drop splitIndex))
    else if remaining.isEmpty then [] else [trimStartAndEnd remaining]

/-- UShortStoryParser::SplitTextByLength (int32 MaxLen ≤ 0 is modelled
    by maxLen = 0, the only non-positive natural). -/
def splitTextByLength (text : Str) (maxLen : ℕ) : List Str :=
  if text.isEmpty then []
  else if maxLen = 0 then [text]
  else splitLoop maxLen text.length text

/-- UShortStoryParser::ProcessTextToLines: split on the literal
    two-backslash manual break marker, auto-wrap each piece, and emit
    one StoryLine per physical segment; only the last segment keeps the
    requested pause, earlier ones get LineBreak. -/
def processTextToLines (text : Str) (anim : Anim) (speed : Speed) (pause : PauseKind)
    (effect : Effect) (offset : Vec2) (outLines : List StoryLine) (maxLen : ℕ) :
    List StoryLine :=
  let manualSegs0 := splitSubKeep (("\\\\").toList) text
  let manualSegs := if manualSegs0.isEmpty then [text] else manualSegs0
  let finalSegs :=
    manualSegs.foldl (fun acc seg => acc ++ splitTextByLength (trimStartAndEnd seg) maxLen) []
  let n := finalSegs.length
  outLines ++ (List.range n).map (fun i =>
    { text := finalSegs.getD i [], animationType := anim, speed := speed, effect := effect,
      positionOffset := offset,
      pauseDuration := if i = n - 1 then pause else PauseKind.lineBreak })

/- ===== Timed events (UShortStoryParser::ParseTimedEvent) ===== -/

/-- Diagnostics ParseTimedEvent can produce. -/
inductive TEErr
  | emptyEvent
  | sfxFormat
  | vfxFormat
  | waitFormat
  | backgroundFormat
  | unknownCommand (s : Str)
  deriving DecidableEq, Repr

/-- UShortStoryParser::ParseTimedEvent (the '@' has been stripped by
    the caller).  The remainder slices use Command.Len() on the raw
    line exactly as the source does. -/
def parseTimedEvent (line : Str) : Except TEErr StoryTimedEvent :=
  let parts := splitCharCull ' ' line
  match parts with
  | [] => .error .emptyEvent
  | cmd0 :: _ =>
    let cmd := toLowerStr cmd0
    if cmd == ("sfx").toList then
      let remainder := trimStartAndEnd (line.drop cmd.length)
      let fields := splitCharKeep '|' remainder
      if fields.length < 2 then .error .sfxFormat
      else .ok { eventType := .sfx, assetPath := trimStartAndEnd (fields.getD 0 []),
                 startTime := atofQ (trimStartAndEnd (fields.getD 1 [])), duration := 0 }
    else if cmd == ("vfx").toList then
      let remainder := trimStartAndEnd (line.drop cmd.length)
      let fields := splitCharKeep '|' remainder
      if fields.length < 3 then .error .vfxFormat
      else .ok { eventType := .vfx, assetPath := trimStartAndEnd (fields.getD 0 []),
                 startTime := atofQ (trimStartAndEnd (fields.getD 1 [])),
                 duration := atofQ (trimStartAndEnd (fields.getD 2 [])) }
    else if cmd == ("wait").toList then
      if parts.length < 2 then .error .waitFormat
      else .ok { eventType := .wait, startTime := atofQ (parts.getD 1 []),
                 duration := 0, assetPath := [] }
    else if cmd == ("background").toList then
      let path := trimStartAndEnd (line.drop cmd.length)
      if path.isEmpty then .error .backgroundFormat
      else .ok { eventType := .backgroundChange, assetPath := path,
                 startTime := 0, duration := 0 }
    else .error (.unknownCommand cmd)

/- ===== Story parsing state machine ===== -/

/-- The local EParseState of ParseStoryFromString. -/
inductive PState
  | none
  | storyMeta
  | screenContent
  deriving DecidableEq, Repr

/-- The diagnostics ParseStoryFromString accumulates in OutErrors,
    modelled structurally (line number plus message kind). -/
inductive Diag
  | orphanedText (n : ℕ)
  | unknownSection (n : ℕ) (name : Str)
  | invalidMetadataFormat (n : ℕ) (line : Str)
  | noActiveScreen (n : ℕ)
  | timedEventError (n : ℕ) (e : TEErr)
  | spacerInPendingBlock (n : ℕ)
  | lineAttrError (n : ℕ) (e : AttrErr)
  | contentBeforeSection (n : ℕ)
  | emptyStoryFile
  | missingStorySection
  | eofOrphanedText
  | missingTitle
  | noScreensDefined
  deriving DecidableEq, Repr

/-- The traversal state of the parse loop: parser state, metadata maps,
    the screens built so far (CurrentScreen is the last entry), whether
    a [STORY] section was seen, the pending continuation buffer, and the
    accumulated diagnostics. -/
structure ParserSt where
  pstate : PState := .none
  storyMeta : SMap := []
  screenMeta : SMap := []
  screens : List StoryScreen := []
  foundStory : Bool := false
  pending : List Str := []
  errors : List Diag := []
  deriving DecidableEq, Repr

/-- Apply `f` to the last element (CurrentScreen is a pointer to the
    last screen in the source). -/
def modifyLast (f : StoryScreen → StoryScreen) : List StoryScreen → List StoryScreen
  | [] => []
  | [s] => [f s]
  | s :: rest => s :: modifyLast f rest

/-- The last screen, or a default-constructed one. -/
def lastScreenD : List StoryScreen → StoryScreen
  | [] => {}
  | [s] => s
  | _ :: rest => lastScreenD rest

/-- The screen-metadata application inside ParseStoryFromString:
    `background` sets the raw path (and the asset reference when the
    value looks like an engine asset path); `transition` is applied via
    the keyword table, with unknown values silently ignored. -/
def applyScreenMeta (m : SMap) (sc : StoryScreen) : StoryScreen :=
  let sc1 :=
    match mapFindIC m (("background").toList) with
    | some bg =>
      let sc2 := { sc with backgroundPath := bg }
      if startsWithStr (("/Game").toList) bg || startsWithStr (("/Engine").toList) bg then
        { sc2 with backgroundAsset := some bg }
      else sc2
    | none => sc
  match mapFindIC m (("transition").toList) with
  | some tv =>
    match parseTransitionType tv with
    | some t => { sc1 with transitionType := t }
    | none => sc1
  | none => sc1

/-- The synthetic spacer line ([SPACER] token and paragraph spacer). -/
def spacerLine : StoryLine :=
  { text := (" ").toList, animationType := .typewriter, pauseDuration := .none,
    effect := .none }

/-- The tail of the ScreenContent case: timed event, [SPACER] token,
    pipe-delimited terminator line, or pending continuation line. -/
def screenContentRest (maxLen : ℕ) (st : ParserSt) (n : ℕ) (line : Str) : ParserSt :=
  if startsWithStr (("@").toList) line then
    match parseTimedEvent (line.drop 1) with
    | .ok ev =>
      { st with screens :=
          modifyLast (fun sc => { sc with timedEvents := sc.timedEvents ++ [ev] }) st.screens }
    | .error e => { st with errors := st.errors ++ [.timedEventError n e] }
  else if eqIC (trimStartAndEnd line) (("[SPACER]").toList) then
    let st1 :=
      if !st.pending.isEmpty then
        { st with errors := st.errors ++ [.spacerInPendingBlock n], pending := [] }
      else st
    { st1 with screens :=
        modifyLast (fun sc => { sc with lines := sc.lines ++ [spacerLine] }) st1.screens }
  else if line.contains '|' then
    let r := parseLineAttributes line
    if r.ok then
      let pendingLines := st.pending.foldl
        (fun acc p => processTextToLines p r.anim r.speed .none r.effect r.offset acc maxLen) []
      let newLines :=
        processTextToLines r.text r.anim r.speed r.pause r.effect r.offset pendingLines maxLen
          ++ [spacerLine]
      { st with
          screens := modifyLast (fun sc => { sc with lines := sc.lines ++ newLines }) st.screens,
          pending := [] }
    else
      -- err is always set on the failure paths; the default is unreachable
      { st with errors := st.errors ++ [.lineAttrError n (r.err.getD .emptyText)] }
  else
    { st with pending := st.pending ++ [line] }

/-- The ScreenContent case of the parse loop.  The screen-metadata
    branch only runs while the screen has no content (no lines, no
    events, no pending continuation), short-circuiting exactly as the
    `!bHasContent && ParseMetadataLine(...)` condition does. -/
def screenContentStep (maxLen : ℕ) (st : ParserSt) (n : ℕ) (line : Str) : ParserSt :=
  if st.screens.isEmpty then { st with errors := st.errors ++ [.noActiveScreen n] }
  else
    let sc := lastScreenD st.screens
    let bHasContent := !sc.lines.isEmpty || !sc.timedEvents.isEmpty || !st.pending.isEmpty
    if !bHasContent then
      match parseMetadataLine line st.screenMeta with
      | some m =>
        { st with screenMeta := m, screens := modifyLast (applyScreenMeta m) st.screens }
      | none => screenContentRest maxLen st n line
    else screenContentRest maxLen st n line

/-- One iteration of the parse loop of ParseStoryFromString (one raw
    input line, 1-based line number `n`). -/
def parseOneLine (maxLen : ℕ) (st : ParserSt) (n : ℕ) (raw : Str) : ParserSt :=
  let line := cleanLine raw
  if line.isEmpty then st
  else
    match sectionHeaderName line with
    | some name =>
      let st1 :=
        if !st.pending.isEmpty then
          { st with errors := st.errors ++ [.orphanedText n], pending := [] }
        else st
      if eqIC name (("STORY").toList) then
        { st1 with pstate := .storyMeta, foundStory := true }
      else if startsWithIC (("SCREEN").toList) name then
        { st1 with pstate := .screenContent, screenMeta := [],
                   screens := st1.screens ++ [({} : StoryScreen)] }
      else { st1 with errors := st1.errors ++ [.unknownSection n name] }
    | none =>
      match st.pstate with
      | .storyMeta =>
        match parseMetadataLine line st.storyMeta with
        | some m => { st with storyMeta := m }
        | none => { st with errors := st.errors ++ [.invalidMetadataFormat n line] }
      | .screenContent => screenContentStep maxLen st n line
      | .none => { st with errors := st.errors ++ [.contentBeforeSection n] }

/-- The whole parse loop. -/
def parseLinesGo (maxLen : ℕ) : ParserSt → ℕ → List Str → ParserSt
  | st, _, [] => st
  | st, n, l :: rest => parseLinesGo maxLen (parseOneLine maxLen st n l) (n + 1) rest

/-- The outputs of ParseStoryFromString: the out-parameter story, the
    accumulated diagnostics and the bool return value. -/
structure ParseOut where
  story : ShortStory
  errors : List Diag
  ok : Bool
  deriving DecidableEq, Repr

/-- UShortStoryParser::ParseStoryFromString. -/
def parseStoryFromString (input : Str) (maxLen : ℕ) : ParseOut :=
  let lines := splitIntoLines input
  if lines.isEmpty then { story := {}, errors := [.emptyStoryFile], ok := false }
  else
    let st := parseLinesGo maxLen {} 1 lines
    let story0 : ShortStory := { screens := st.screens }
    if !st.foundStory then
      { story := story0, errors := st.errors ++ [.missingStorySection], ok := false }
    else
      let errs := if !st.pending.isEmpty then st.errors ++ [.eofOrphanedText] else st.errors
      let story1 :=
        match mapFindIC st.storyMeta (("title").toList) with
        | some t => { story0 with title := t }
        | none => story0
      let story2 :=
        match mapFindIC st.storyMeta (("ost").toList) with
        | some o => { story1 with ost := o }
        | none => story1
      if !story2.isValid then
        let errs1 := if story2.title.isEmpty then errs ++ [.missingTitle] else errs
        let errs2 := if story2.screens.isEmpty then errs1 ++ [.noScreensDefined] else errs1
        { story := story2, errors := errs2, ok := false }
      else
        { story := story2, errors := errs, ok := true }

/- ===== Playback state machine (ShortStorySubsystem.cpp) ===== -/

/-- EStoryPlaybackState. -/
inductive PlaybackState
  | idle
  | playingLine
  | pausingAfterLine
  | transitioningScreen
  | completed
  deriving DecidableEq, Repr

/-- Generic TMap::Find for enum-keyed maps. -/
def assocFind {α β : Type} [DecidableEq α] : List (α × β) → α → Option β
  | [], _ => none
  | (a, v) :: rest, k => if a = k then some v else assocFind rest k

/-- The timing/pause configuration members of the subsystem (loaded
    once from CSV; the numeric defaults are the header initialisers). -/
structure PlayerConfig where
  speedTimings : List (Speed × Timing) := []
  pauseDurations : List (PauseKind × ℚ) := []
  screenTransitionPauseSeconds : ℚ := 3 / 2
  fadeWindowSeconds : ℚ := 1 / 2
  lineBreakPercent : ℚ := 33 / 50
  deriving DecidableEq, Repr

/-- UShortStorySubsystem::GetSpeedTiming (falls back to Standard, then
    to a default-constructed FStoryAnimationTiming). -/
def getSpeedTiming (cfg : PlayerConfig) (speed : Speed) : Timing :=
  match assocFind cfg.speedTimings speed with
  | some t => t
  | none =>
    match assocFind cfg.speedTimings Speed.standard with
    | some t => t
    | none => {}

/-- UShortStorySubsystem::GetPauseDuration: LineBreak and None resolve
    to FadeWindowSeconds × LineBreakPercent, the rest via the table
    (missing entries resolve to 0). -/
def getPauseDuration (cfg : PlayerConfig) (k : PauseKind) : ℚ :=
  if k = .lineBreak ∨ k = .none then cfg.fadeWindowSeconds * cfg.lineBreakPercent
  else
    match assocFind cfg.pauseDurations k with
    | some v => v
    | none => 0

/-- The per-character extra-delay classification, duplicated verbatim in
    CalculateTypewriterDuration and GetCharacterIndexAtTime: whitespace,
    sentence-ending punctuation, comma, then semicolon/colon with the
    colon split out. -/
def extraTimeFor (t : Timing) (c : Char) : ℚ :=
  if isWSChar c then t.extraAtSpace
  else if c = '.' ∨ c = '!' ∨ c = '?' then t.extraAtPeriod
  else if c = ',' then t.extraAtComma
  else if c = ';' ∨ c = ':' then
    if c = ':' then t.extraAtColon else t.extraAtComma
  else 0

/-- UShortStorySubsystem::CalculateTypewriterDuration. -/
def calculateTypewriterDuration (cfg : PlayerConfig) (text : Str) (speed : Speed) : ℚ :=
  let t := getSpeedTiming cfg speed
  text.foldl (fun total c => total + t.perLetter + extraTimeFor t c) 0

/-- UShortStorySubsystem::CalculateLineDuration: fixed BlockDuration for
    every non-Typewriter animation, character-weighted otherwise. -/
def calculateLineDuration (cfg : PlayerConfig) (line : StoryLine) : ℚ :=
  if line.animationType ≠ .typewriter then (getSpeedTiming cfg line.speed).blockDuration
  else calculateTypewriterDuration cfg line.text line.speed

/-- The character walk of GetCharacterIndexAtTime: per character, a
    typing phase of PerLetter (index i while inside it) then an extra
    phase of the punctuation bonus (index i+1 while inside it). -/
def charIndexLoop (t : Timing) (time : ℚ) : ℚ → ℕ → Str → ℕ
  | _, i, [] => i
  | cur, i, c :: rest =>
    let typeTime := t.perLetter
    let extraTime := extraTimeFor t c
    if time < cur + typeTime then i
    else if time < cur + typeTime + extraTime then i + 1
    else charIndexLoop t time (cur + typeTime + extraTime) (i + 1) rest

/-- UShortStorySubsystem::GetCharacterIndexAtTime. -/
def getCharacterIndexAtTime (cfg : PlayerConfig) (text : Str) (speed : Speed)
    (time : ℚ) : ℕ :=
  if time ≤ 0 then 0
  else charIndexLoop (getSpeedTiming cfg speed) time 0 0 text

/-- The playback-state members of UShortStorySubsystem; `tickerActive`
    models TickerHandle.IsValid(). -/
structure PlayerSt where
  cfg : PlayerConfig := {}
  story : ShortStory := {}
  screenIdx : ℕ := 0
  lineIdx : ℕ := 0
  lineElapsed : ℚ := 0
  lineDuration : ℚ := 0
  pauseElapsed : ℚ := 0
  pauseDuration : ℚ := 0
  screenElapsed : ℚ := 0
  transitionElapsed : ℚ := 0
  processedEvents : List ℕ := []
  lineStartTimes : List ℚ := []
  isPlaying : Bool := false
  isPaused : Bool := false
  state : PlaybackState := .idle
  tickerActive : Bool := false
  deriving DecidableEq, Repr

/-- UShortStorySubsystem::GetCurrentLine. -/
def getCurrentLine (s : PlayerSt) : StoryLine :=
  if !s.isPlaying || s.screenIdx ≥ s.story.screens.length then {}
  else
    let screen := s.story.screens.getD s.screenIdx {}
    if s.lineIdx ≥ screen.lines.length then {}
    else screen.lines.getD s.lineIdx {}

/-- The CascadeDelay constant (0.2s between TopDown lines). -/
def cascadeDelaySeconds : ℚ := 1 / 5

/-- The contiguous-block scan of StartLine: the last index of the run of
    consecutive lines sharing the first line's animation type. -/
def blockEndIndex (lines : List StoryLine) (anim : Anim) (idx : ℕ) : ℕ :=
  idx + ((lines.drop (idx + 1)).takeWhile (fun l => l.animationType == anim)).length

/-- The accumulator of the block-timing loop in StartLine. -/
structure BlockAcc where
  delay : ℚ
  maxFinish : ℚ
  starts : List ℚ
  deriving Repr

/-- One iteration of the block-timing loop in StartLine: record the
    line's start time, bump the cascade delay for TopDown, then track
    the finish time (the source bumps the delay BEFORE computing
    FinishTime, which its own comment block re-derives differently). -/
def blockStep (cfg : PlayerConfig) (lines : List StoryLine) (isTopDown : Bool)
    (screenElapsed : ℚ) (acc : BlockAcc) (i : ℕ) : BlockAcc :=
  let starts :=
    if i < acc.starts.length then acc.starts.set i (screenElapsed + acc.delay)
    else acc.starts
  let delay := if isTopDown then acc.delay + cascadeDelaySeconds else acc.delay
  let thisDuration := calculateLineDuration cfg (lines.getD i {})
  let finish := delay + thisDuration
  { delay := delay,
    maxFinish := if acc.maxFinish < finish then finish else acc.maxFinish,
    starts := starts }

/-- UShortStorySubsystem::StartLine. -/
def startLine (s : PlayerSt) (idx : ℕ) : PlayerSt :=
  if s.screenIdx ≥ s.story.screens.length then s
  else
    let screen := s.story.screens.getD s.screenIdx {}
    if idx ≥ screen.lines.length then s
    else
      let line := screen.lines.getD idx {}
      if line.animationType = .paragraph ∨ line.animationType = .topDown then
        let blockEnd := blockEndIndex screen.lines line.animationType idx
        let acc := (List.range' idx (blockEnd + 1 - idx)).foldl
          (blockStep s.cfg screen.lines (line.animationType == .topDown) s.screenElapsed)
          { delay := 0, maxFinish := 0, starts := s.lineStartTimes }
        { s with lineStartTimes := acc.starts, lineDuration := acc.maxFinish,
                 lineIdx := blockEnd, lineElapsed := 0, state := .playingLine }
      else
        { s with lineDuration := calculateTypewriterDuration s.cfg line.text line.speed,
                 lineStartTimes :=
                   if idx < s.lineStartTimes.length then
                     s.lineStartTimes.set idx s.screenElapsed
                   else s.lineStartTimes,
                 lineElapsed := 0, state := .playingLine }

/-- UShortStorySubsystem::StartPause. -/
def startPause (s : PlayerSt) : PlayerSt :=
  let line := getCurrentLine s
  { s with pauseDuration := getPauseDuration s.cfg line.pauseDuration,
           pauseElapsed := 0, state := .pausingAfterLine }

/-- UShortStorySubsystem::AdvanceToNextScreen (note: TransitionElapsedTime
    is not touched on either path). -/
def advanceToNextScreen (s : PlayerSt) : PlayerSt :=
  let s1 := { s with screenIdx := s.screenIdx + 1 }
  if s1.screenIdx < s1.story.screens.length then
    let nextScreen := s1.story.screens.getD s1.screenIdx {}
    { s1 with lineIdx := 0, screenElapsed := 0, processedEvents := [],
              lineStartTimes := List.replicate nextScreen.lines.length (-1),
              state := .transitioningScreen }
  else
    { s1 with isPlaying := false, state := .completed, tickerActive := false }

/-- UShortStorySubsystem::AdvanceToNextLineOrScreen. -/
def advanceToNextLineOrScreen (s : PlayerSt) : PlayerSt :=
  if s.screenIdx ≥ s.story.screens.length then s
  else
    let screen := s.story.screens.getD s.screenIdx {}
    let s1 := { s with lineIdx := s.lineIdx + 1 }
    if s1.lineIdx < screen.lines.length then startLine s1 s1.lineIdx
    else advanceToNextScreen s1

/-- UShortStorySubsystem::OnScreenTransitionComplete. -/
def onScreenTransitionComplete (s : PlayerSt) : PlayerSt :=
  if s.screenIdx ≥ s.story.screens.length then s
  else
    let screen := s.story.screens.getD s.screenIdx {}
    if screen.lines.length > 0 then startLine s 0
    else advanceToNextScreen s

/-- UShortStorySubsystem::ProcessTimedEvents: fire every not-yet-fired
    event whose StartTime has been reached, marking each exactly once. -/
def processTimedEvents (s : PlayerSt) : PlayerSt :=
  if s.screenIdx ≥ s.story.screens.length then s
  else
    let events := (s.story.screens.getD s.screenIdx {}).timedEvents
    { s with processedEvents :=
        (List.range events.length).foldl (fun acc i =>
          if acc.contains i then acc
          else if s.screenElapsed ≥ (events.getD i {}).startTime then acc ++ [i]
          else acc) s.processedEvents }

/-- UShortStorySubsystem::Tick. -/
def tick (s : PlayerSt) (dt : ℚ) : PlayerSt :=
  if !s.isPlaying || s.isPaused then s
  else
    let s1 := { s with screenElapsed := s.screenElapsed + dt }
    let s2 := processTimedEvents s1
    match s2.state with
    | .playingLine =>
      let s3 := { s2 with lineElapsed := s2.lineElapsed + dt }
      if s3.lineElapsed ≥ s3.lineDuration then startPause s3 else s3
    | .pausingAfterLine =>
      let s3 := { s2 with pauseElapsed := s2.pauseElapsed + dt }
      if s3.pauseElapsed ≥ s3.pauseDuration then advanceToNextLineOrScreen s3 else s3
    | .transitioningScreen =>
      let s3 := { s2 with transitionElapsed := s2.transitionElapsed + dt }
      if s3.transitionElapsed ≥ s3.cfg.screenTransitionPauseSeconds then
        onScreenTransitionComplete s3
      else s3
    | .completed => s2
    | .idle => s2

/-- UShortStorySubsystem::StopStory (early-out when nothing is playing;
    TransitionElapsedTime and LineDuration/PauseDuration keep their
    values even on the active path, exactly as in the source). -/
def stopStory (s : PlayerSt) : PlayerSt :=
  if !s.isPlaying then s
  else
    { s with isPlaying := false, isPaused := false, state := .idle,
             screenIdx := 0, lineIdx := 0, screenElapsed := 0, lineElapsed := 0,
             pauseElapsed := 0, processedEvents := [], lineStartTimes := [],
             tickerActive := false }

/- ===== Derived definitions used by the verification ===== -/

/-- Total per-character cost of one character: typing time plus the
    punctuation-specific extra. -/
def charCost (t : Timing) (c : Char) : ℚ := t.perLetter + extraTimeFor t c

/-- Recursive form of the character-weighted total duration. -/
def costSum (t : Timing) : Str → ℚ
  | [] => 0
  | c :: rest => charCost t c + costSum t rest

/-- An optional-parameter field (field index ≥ 2 of a pipe line) that the
    attribute parser diagnoses: not of key=value shape, an unknown key,
    or a known key with an unparsable value. -/
def paramFieldBad (f : Str) : Bool :=
  match splitFirstAt '=' f with
  | some (k0, v0) =>
    let k := toLowerStr (trimStartAndEnd k0)
    let v := trimStartAndEnd v0
    if k == ("speed").toList then (parseSpeed v).isNone
    else if k == ("pause").toList then (parsePauseDuration v).isNone
    else if k == ("effect").toList then (parseEffectType v).isNone
    else if k == ("offset").toList then (parsePositionOffset v).isNone
    else true
  | none => true

/-- A line whose pause kind is not the never-parsed Wait. -/
def lineNoWait (l : StoryLine) : Bool := l.pauseDuration != PauseKind.wait

/-- All lines of a screen list avoid the Wait pause kind. -/
def screensNoWait (ss : List StoryScreen) : Bool :=
  ss.all (fun sc => sc.lines.all lineNoWait)

/-- The conclusion of the amended C6 claim: processing an accepted
    pipe-delimited line with a bad optional field leaves the diagnostic
    list unchanged, the attribute parser accepts the line but records
    the diagnostic internally, and the output lines are emitted. -/
def c6Conclusion (maxLen : ℕ) (st : ParserSt) (n : ℕ) (line : Str) : Prop :=
  (screenContentStep maxLen st n line).errors = st.errors ∧
  (parseLineAttributes line).ok = true ∧
  (parseLineAttributes line).err ≠ none ∧
  (∃ newLines,
    (lastScreenD (screenContentStep maxLen st n line).screens).lines
      = (lastScreenD st.screens).lines ++ newLines ∧ newLines ≠ []) ∧
  ((∀ f ∈ (attrFields line).drop 2, paramFieldBad f = true) →
    (parseLineAttributes line).speed = .standard ∧
    (parseLineAttributes line).pause = .none ∧
    (parseLineAttributes line).effect = .none ∧
    (parseLineAttributes line).offset = {})

/- ===== Concrete instances used by the verification ===== -/

/-- A continuation block ending in a long-pause typewriter terminator. -/
def c2Input : Str :=
  ("[STORY]\ntitle = T\n[SCREEN_01]\nA\nB\nFinal | typewriter | pause=long").toList

/-- A content line with an unknown parameter key and a malformed offset
    value, inside an otherwise valid story. -/
def c6Input : Str :=
  ("[STORY]\ntitle = T\n[SCREEN_01]\nHi | typewriter | bogus=1 | offset=abc").toList

/-- One line of a TopDown block. -/
def topDownLine : StoryLine := { text := ("x").toList, animationType := .topDown }

/-- A player about to start a screen consisting of a 3-line TopDown
    block (default timing: BlockDuration d = 2). -/
def c1State : PlayerSt :=
  { story := { title := ("T").toList,
               screens := [{ lines := [topDownLine, topDownLine, topDownLine] }] },
    isPlaying := true, lineStartTimes := [-1, -1, -1], state := .playingLine }

/-- An ordinary (non-block) line with a non-Typewriter animation. -/
def snakeLine : StoryLine := { text := ("Hello.").toList, animationType := .snake }

/-- A player about to start a screen consisting of one Snake line. -/
def c3State : PlayerSt :=
  { story := { title := ("T").toList, screens := [{ lines := [snakeLine] }] },
    isPlaying := true, lineStartTimes := [-1], state := .playingLine }

/-- A two-screen story. -/
def c4Story : ShortStory :=
  { title := ("T").toList,
    screens := [{ lines := [{ text := ("a").toList }] },
                { lines := [{ text := ("b").toList }, { text := ("c").toList }] }] }

/-- A player finishing screen 0 with a stale transition counter left
    over from an earlier completed transition (8/5 ≥ the 3/2 pause). -/
def c4State : PlayerSt :=
  { story := c4Story, isPlaying := true, screenIdx := 0, lineIdx := 1,
    screenElapsed := 5, transitionElapsed := mkRat 8 5, processedEvents := [0],
    lineStartTimes := [3], state := .pausingAfterLine }

/-- A player after a story finished naturally (Completed, not playing,
    ticker already removed, counters still holding their last values). -/
def c5CompletedState : PlayerSt :=
  { story := c4Story, isPlaying := false, screenIdx := 2, lineIdx := 3,
    screenElapsed := 7, lineElapsed := 2, pauseElapsed := 1, transitionElapsed := 3,
    processedEvents := [0], lineStartTimes := [0, 1], state := .completed,
    tickerActive := false }

/-- A player in the middle of active playback. -/
def c5PlayingState : PlayerSt :=
  { story := c4Story, isPlaying := true, screenIdx := 0, lineIdx := 0,
    screenElapsed := 3, lineElapsed := 1, pauseElapsed := 0, processedEvents := [0],
    lineStartTimes := [0], state := .playingLine, tickerActive := true }

/-- An actively playing but paused player. -/
def c8PausedState : PlayerSt :=
  { story := c4Story, isPlaying := true, isPaused := true, screenIdx := 0,
    lineIdx := 0, screenElapsed := 2, lineElapsed := 1, state := .playingLine,
    tickerActive := true }

/-- A parser state inside a screen section with one (so far empty)
    screen. -/
def c6St : ParserSt :=
  { pstate := .screenContent, screens := [{}], foundStory := true }

/-- A timing profile whose entries are all zero (a degenerate but
    representable configuration). -/
def zeroTiming : Timing :=
  { perLetter := 0, extraAtSpace := 0, extraAtPeriod := 0, extraAtComma := 0,
    blockDuration := 0, extraAtColon := 0 }

/-- A config whose Standard speed resolves to the all-zero profile. -/
def zeroCfg : PlayerConfig := { speedTimings := [(Speed.standard, zeroTiming)] }

/- ===== C1 ===== -/

/-- C1: For a TopDown block of 3 lines each with per-line Duration d = 2,
    the claim says the block total duration is the maximum over the run
    of (cascade delay + Duration) = 2×0.2 + d = 12/5.  StartLine instead
    bumps the cascade delay before computing each finish time (its own
    comment block derives Finish = Start + Duration), producing
    3×0.2 + d = 13/5, while the per-line start times really are
    0, 0.2, 0.4. -/
theorem C1_topDown_block_duration_at_failing_input :
    (startLine c1State 0).lineDuration = mkRat 13 5 ∧
    (startLine c1State 0).lineStartTimes = [0, mkRat 1 5, mkRat 2 5] ∧
    (startLine c1State 0).lineIdx = 2 ∧
    cascadeDelaySeconds * 2 + calculateLineDuration c1State.cfg topDownLine = mkRat 12 5 ∧
    mkRat 13 5 ≠ mkRat 12 5 := by
  with_unfolding_all decide

/- ===== C2 ===== -/

/-- C2 counterexample: parsing the continuation block
    "A\nB\nFinal | typewriter | pause=long" yields pauses
    [None, None, Long, None] — the two continuation lines carry the
    forced None pause, not LineBreak as the claim states. -/
theorem C2_continuation_pause_counterexample :
    ((parseStoryFromString c2Input 80).story.screens.getD 0 {}).lines.map
        (fun l => l.pauseDuration) = [.none, .none, .long, .none] ∧
    ([PauseKind.none, .none, .long, .none]
      ≠ [PauseKind.lineBreak, .lineBreak, .long, .none]) := by
  with_unfolding_all decide

/-- C2 amended: the continuation block produces Lines "A", "B", "Final"
    with pauses [None, None, Long] (continuation lines get a forced None
    pause; LineBreak only arises from wrapping a single chunk), followed
    by exactly one spacer Line with pause None. -/
theorem C2_continuation_pauses_amended :
    (parseStoryFromString c2Input 80).ok = true ∧
    ((parseStoryFromString c2Input 80).story.screens.getD 0 {}).lines.map
        (fun l => (l.text, l.pauseDuration)) =
      [(("A").toList, .none), (("B").toList, .none),
       (("Final").toList, .long), ((" ").toList, .none)] := by
  with_unfolding_all decide

/- ===== C3 ===== -/

/-- C3: for a non-block, non-Typewriter line (Snake, "Hello.", standard
    speed), StartLine sets the line duration to the character-weighted
    CalculateTypewriterDuration (27/50) instead of the Duration
    Calculator's value (BlockDuration = 2) that the claim — and the
    "(Typewriter only)" doc of CalculateTypewriterDuration plus the
    Screen State snapshot, which uses CalculateLineDuration — require. -/
theorem C3_startLine_duration_at_failing_input :
    (startLine c3State 0).lineDuration
        = calculateTypewriterDuration c3State.cfg (("Hello.").toList) .standard ∧
    (startLine c3State 0).lineDuration = mkRat 27 50 ∧
    calculateLineDuration c3State.cfg snakeLine = 2 ∧
    mkRat 27 50 ≠ (2 : ℚ) := by
  with_unfolding_all decide

/- ===== C4 ===== -/

/-- C4: when screens remain, AdvanceToNextScreen resets the line cursor,
    screen clock, fired-event set and start-time array and enters
    TransitioningScreen — but leaves the transition-elapsed counter at
    its stale value (8/5 here) instead of resetting it to 0 as the claim
    states (both debug seek paths do reset it). -/
theorem C4_advanceToNextScreen_at_failing_input :
    (advanceToNextScreen c4State).lineIdx = 0 ∧
    (advanceToNextScreen c4State).screenElapsed = 0 ∧
    (advanceToNextScreen c4State).processedEvents = [] ∧
    (advanceToNextScreen c4State).lineStartTimes = [-1, -1] ∧
    (advanceToNextScreen c4State).state = .transitioningScreen ∧
    (advanceToNextScreen c4State).transitionElapsed = mkRat 8 5 ∧
    mkRat 8 5 ≠ (0 : ℚ) := by
  with_unfolding_all decide

/- ===== C5 ===== -/

/-- C5 counterexample: after a natural finish (Completed, not playing),
    StopStory takes its early-out and changes nothing: the state stays
    Completed rather than Idle and the counters keep their values. -/
theorem C5_stop_after_completed_counterexample :
    stopStory c5CompletedState = c5CompletedState ∧
    c5CompletedState.state = .completed ∧
    PlaybackState.completed ≠ .idle ∧
    c5CompletedState.screenElapsed ≠ 0 := by
  with_unfolding_all decide

/-- C5 amended: when Stop is called while playback is active, the state
    becomes Idle, the screen/line/pause counters and per-screen
    bookkeeping are cleared, and the player detaches from the periodic
    clock; when playback is not active (including Completed after a
    natural finish) Stop is a no-op. -/
theorem C5_stop_while_playing_amended (s : PlayerSt) (h : s.isPlaying = true) :
    (stopStory s).isPlaying = false ∧ (stopStory s).isPaused = false ∧
    (stopStory s).state = .idle ∧ (stopStory s).screenIdx = 0 ∧
    (stopStory s).lineIdx = 0 ∧ (stopStory s).screenElapsed = 0 ∧
    (stopStory s).lineElapsed = 0 ∧ (stopStory s).pauseElapsed = 0 ∧
    (stopStory s).processedEvents = [] ∧ (stopStory s).lineStartTimes = [] ∧
    (stopStory s).tickerActive = false := by
  simp [stopStory, h]

/-- C5 witness: the amended theorem applied to a concrete active state. -/
theorem C5_stop_witness :
    (stopStory c5PlayingState).isPlaying = false ∧
    (stopStory c5PlayingState).isPaused = false ∧
    (stopStory c5PlayingState).state = .idle ∧
    (stopStory c5PlayingState).screenIdx = 0 ∧
    (stopStory c5PlayingState).lineIdx = 0 ∧
    (stopStory c5PlayingState).screenElapsed = 0 ∧
    (stopStory c5PlayingState).lineElapsed = 0 ∧
    (stopStory c5PlayingState).pauseElapsed = 0 ∧
    (stopStory c5PlayingState).processedEvents = [] ∧
    (stopStory c5PlayingState).lineStartTimes = [] ∧
    (stopStory c5PlayingState).tickerActive = false :=
  C5_stop_while_playing_amended c5PlayingState rfl

/- ===== C8 ===== -/

/-- C8: Tick while not playing or paused is a global freeze — the entire
    player state (every counter, cursor, the fired-event set and the
    playback state) is returned unchanged for any delta time. -/
theorem C8_tick_paused_noop (s : PlayerSt) (dt : ℚ)
    (h : s.isPlaying = false ∨ s.isPaused = true) : tick s dt = s := by
  rcases h with h | h <;> simp [tick, h]

/-- C8 witness: a concrete paused state is untouched by a tick. -/
theorem C8_tick_paused_witness : tick c8PausedState 1 = c8PausedState :=
  C8_tick_paused_noop c8PausedState 1 (Or.inr rfl)

/- ===== C7 counterexample ===== -/

/-- C7 counterexample: with the all-zero timing profile the computed
    total duration of "ab" is 0, and GetCharacterIndexAtTime takes its
    Time ≤ 0 early-out, returning 0 instead of the text length 2 — the
    claim is not true for every timing profile. -/
theorem C7_zero_profile_counterexample :
    getCharacterIndexAtTime zeroCfg (("ab").toList) .standard
        (calculateTypewriterDuration zeroCfg (("ab").toList) .standard) = 0 ∧
    (("ab").toList).length = 2 ∧ (0 : ℕ) ≠ 2 := by
  with_unfolding_all decide

/- ===== C7 amended ===== -/

/-- The foldl in CalculateTypewriterDuration computes the recursive
    per-character cost sum. -/
theorem foldl_cost_eq (t : Timing) :
    ∀ (l : Str) (a : ℚ),
      l.foldl (fun total c => total + t.perLetter + extraTimeFor t c) a = a + costSum t l
  | [], a => by simp [costSum]
  | c :: rest, a => by
    simp only [List.foldl_cons, foldl_cost_eq t rest, costSum, charCost]
    ring

/-- CalculateTypewriterDuration as a cost sum. -/
theorem calculateTypewriterDuration_eq (cfg : PlayerConfig) (text : Str) (speed : Speed) :
    calculateTypewriterDuration cfg text speed
      = costSum (getSpeedTiming cfg speed) text := by
  unfold calculateTypewriterDuration
  rw [foldl_cost_eq]
  ring

/-- With nonnegative extras every per-character bonus is nonnegative. -/
theorem extraTimeFor_nonneg (t : Timing) (hs : 0 ≤ t.extraAtSpace)
    (hper : 0 ≤ t.extraAtPeriod) (hcom : 0 ≤ t.extraAtComma)
    (hcol : 0 ≤ t.extraAtColon) (c : Char) : 0 ≤ extraTimeFor t c := by
  unfold extraTimeFor
  split_ifs <;> first | assumption | exact le_refl 0

/-- With a positive per-letter cost and nonnegative extras, each
    character costs a positive amount. -/
theorem charCost_pos (t : Timing) (hp : 0 < t.perLetter) (hs : 0 ≤ t.extraAtSpace)
    (hper : 0 ≤ t.extraAtPeriod) (hcom : 0 ≤ t.extraAtComma)
    (hcol : 0 ≤ t.extraAtColon) (c : Char) : 0 < charCost t c :=
  add_pos_of_pos_of_nonneg hp (extraTimeFor_nonneg t hs hper hcom hcol c)

/-- Cost sums are nonnegative under the same assumptions. -/
theorem costSum_nonneg (t : Timing) (hp : 0 < t.perLetter) (hs : 0 ≤ t.extraAtSpace)
    (hper : 0 ≤ t.extraAtPeriod) (hcom : 0 ≤ t.extraAtComma)
    (hcol : 0 ≤ t.extraAtColon) : ∀ l : Str, 0 ≤ costSum t l
  | [] => le_refl 0
  | c :: rest => by
    have h1 := charCost_pos t hp hs hper hcom hcol c
    have h2 := costSum_nonneg t hp hs hper hcom hcol rest
    simp only [costSum]
    linarith

/-- If the elapsed time covers the whole remaining cost, the character
    walk consumes the whole suffix. -/
theorem charIndexLoop_complete (t : Timing) (hp : 0 < t.perLetter)
    (hs : 0 ≤ t.extraAtSpace) (hper : 0 ≤ t.extraAtPeriod)
    (hcom : 0 ≤ t.extraAtComma) (hcol : 0 ≤ t.extraAtColon) (time : ℚ) :
    ∀ (l : Str) (cur : ℚ) (i : ℕ), cur + costSum t l ≤ time →
      charIndexLoop t time cur i l = i + l.length
  | [], cur, i, _ => by simp [charIndexLoop]
  | c :: rest, cur, i, h => by
    have hex : 0 ≤ extraTimeFor t c := extraTimeFor_nonneg t hs hper hcom hcol c
    have hrest : 0 ≤ costSum t rest := costSum_nonneg t hp hs hper hcom hcol rest
    have hcost : costSum t (c :: rest) = t.perLetter + extraTimeFor t c + costSum t rest := by
      simp only [costSum, charCost]
    rw [hcost] at h
    have h1 : ¬ time < cur + t.perLetter := by linarith
    have h2 : ¬ time < cur + t.perLetter + extraTimeFor t c := by linarith
    simp only [charIndexLoop, if_neg h1, if_neg h2]
    rw [charIndexLoop_complete t hp hs hper hcom hcol time rest
      (cur + t.perLetter + extraTimeFor t c) (i + 1) (by linarith)]
    simp only [List.length_cons]
    omega

/-- C7 amended: whenever the resolved timing profile has a positive
    per-letter cost and nonnegative extras (in particular the shipped
    defaults), GetCharacterIndexAtTime evaluated at the exact total
    duration computed by CalculateTypewriterDuration returns the full
    text length — the two functions use the same per-character cost
    terms.  (An all-zero profile is excluded: there the duration is 0
    and the Time ≤ 0 early-out returns 0.) -/
theorem C7_char_index_at_total_duration_amended (cfg : PlayerConfig) (speed : Speed)
    (text : Str)
    (hp : 0 < (getSpeedTiming cfg speed).perLetter)
    (hs : 0 ≤ (getSpeedTiming cfg speed).extraAtSpace)
    (hper : 0 ≤ (getSpeedTiming cfg speed).extraAtPeriod)
    (hcom : 0 ≤ (getSpeedTiming cfg speed).extraAtComma)
    (hcol : 0 ≤ (getSpeedTiming cfg speed).extraAtColon) :
    getCharacterIndexAtTime cfg text speed (calculateTypewriterDuration cfg text speed)
      = text.length := by
  have hdur := calculateTypewriterDuration_eq cfg text speed
  unfold getCharacterIndexAtTime
  cases text with
  | nil => simp [hdur, costSum]
  | cons c rest =>
    have hpos : 0 < costSum (getSpeedTiming cfg speed) (c :: rest) := by
      have h1 := charCost_pos (getSpeedTiming cfg speed) hp hs hper hcom hcol c
      have h2 := costSum_nonneg (getSpeedTiming cfg speed) hp hs hper hcom hcol rest
      simp only [costSum]
      linarith
    rw [hdur, if_neg (by linarith)]
    rw [charIndexLoop_complete (getSpeedTiming cfg speed) hp hs hper hcom hcol
      (costSum (getSpeedTiming cfg speed) (c :: rest)) (c :: rest) 0 0 (by linarith)]
    simp

/-- C7 witness: the amended theorem at the default profile on a text
    exercising space, comma and period bonuses. -/
theorem C7_char_index_witness :
    getCharacterIndexAtTime {} (("Hi, you!").toList) .standard
        (calculateTypewriterDuration {} (("Hi, you!").toList) .standard)
      = (("Hi, you!").toList).length :=
  C7_char_index_at_total_duration_amended {} .standard (("Hi, you!").toList)
    (by with_unfolding_all decide) (by with_unfolding_all decide)
    (by with_unfolding_all decide) (by with_unfolding_all decide)
    (by with_unfolding_all decide)

/- ===== C9 ===== -/

/-- dropWhile never lengthens a list. -/
theorem length_dropWhile_le (p : Char → Bool) :
    ∀ l : List Char, (l.dropWhile p).length ≤ l.length
  | [] => le_refl 0
  | c :: t => by
    simp only [List.dropWhile_cons]
    split
    · exact le_trans (length_dropWhile_le p t) (Nat.le_succ _)
    · exact le_refl _

/-- TrimStart never lengthens a string. -/
theorem length_trimStart_le (s : Str) : (trimStart s).length ≤ s.length :=
  length_dropWhile_le isWSChar s

/-- TrimEnd never lengthens a string. -/
theorem length_trimEnd_le (s : Str) : (trimEnd s).length ≤ s.length := by
  unfold trimEnd
  rw [List.length_reverse]
  exact le_trans (length_dropWhile_le isWSChar s.reverse)
    (le_of_eq (List.length_reverse s))

/-- TrimStartAndEnd never lengthens a string. -/
theorem length_trimStartAndEnd_le (s : Str) : (trimStartAndEnd s).length ≤ s.length :=
  le_trans (length_trimEnd_le _) (length_trimStart_le _)

/-- Trimming a string that starts with a whitespace character drops it. -/
theorem trimStart_cons_ws (c : Char) (s : Str) (h : isWSChar c = true) :
    trimStart (c :: s) = trimStart s := by
  unfold trimStart
  simp [List.dropWhile_cons, h]

/-- The backward space scan only returns indices at or below its start. -/
theorem findSpaceDown_le (s : Str) : ∀ i j, findSpaceDown s i = some j → j ≤ i := by
  intro i
  induction i with
  | zero =>
    intro j h
    simp only [findSpaceDown] at h
    split at h
    · injection h with h'; omega
    · exact absurd h (by simp)
  | succ i ih =>
    intro j h
    simp only [findSpaceDown] at h
    split at h
    · injection h with h'; omega
    · exact le_trans (ih j h) (by omega)

/-- The backward space scan returns positions holding a space. -/
theorem findSpaceDown_space (s : Str) :
    ∀ i j, findSpaceDown s i = some j → s.getD j '\x00' = ' ' := by
  intro i
  induction i with
  | zero =>
    intro j h
    simp only [findSpaceDown] at h
    split at h
    · injection h with h'; subst h'; assumption
    · exact absurd h (by simp)
  | succ i ih =>
    intro j h
    simp only [findSpaceDown] at h
    split at h
    · injection h with h'; subst h'; assumption
    · exact ih j h

/-- The backward scan finds exactly the greatest space index at or
    below the start position. -/
theorem findSpaceDown_eq_some (s : Str) :
    ∀ i j, j ≤ i → s.getD j '\x00' = ' ' →
      (∀ k, j < k → k ≤ i → s.getD k '\x00' ≠ ' ') → findSpaceDown s i = some j := by
  intro i
  induction i with
  | zero =>
    intro j hj hsp _
    have hj0 : j = 0 := Nat.le_zero.mp hj
    subst hj0
    simp only [findSpaceDown]
    rw [if_pos hsp]
  | succ i ih =>
    intro j hj hsp hno
    simp only [findSpaceDown]
    by_cases hc : s.getD (i + 1) '\x00' = ' '
    · rw [if_pos hc]
      rcases Nat.lt_or_ge j (i + 1) with hlt | hge
      · exact absurd hc (hno (i + 1) hlt (le_refl _))
      · rw [le_antisymm hj hge]
    · rw [if_neg hc]
      have hj' : j ≤ i := by
        rcases Nat.lt_or_ge j (i + 1) with hlt | hge
        · omega
        · exact absurd (le_antisymm hj hge ▸ hsp) hc
      exact ih j hj' hsp (fun k hk1 hk2 => hno k hk1 (by omega))

/-- When no space exists at or below the start, the scan fails. -/
theorem findSpaceDown_eq_none (s : Str) :
    ∀ i, (∀ k, k ≤ i → s.getD k '\x00' ≠ ' ') → findSpaceDown s i = none := by
  intro i
  induction i with
  | zero =>
    intro h
    simp only [findSpaceDown]
    rw [if_neg (h 0 (le_refl 0))]
  | succ i ih =>
    intro h
    simp only [findSpaceDown]
    rw [if_neg (h (i + 1) (le_refl _))]
    exact ih (fun k hk => h k (by omega))

/-- Every segment the wrapping loop emits respects the length limit
    (given enough fuel, which the caller always supplies). -/
theorem splitLoop_length_le (maxLen : ℕ) (hm : 1 ≤ maxLen) :
    ∀ (fuel : ℕ) (remaining : Str), remaining.length ≤ fuel →
      ∀ seg ∈ splitLoop maxLen fuel remaining, seg.length ≤ maxLen := by
  intro fuel
  induction fuel with
  | zero =>
    intro remaining hlen seg hseg
    have hnil : remaining = [] := List.length_eq_zero.mp (Nat.le_zero.mp hlen)
    subst hnil
    simp [splitLoop] at hseg
  | succ fuel ih =>
    intro remaining hlen seg hseg
    simp only [splitLoop] at hseg
    by_cases hgt : remaining.length > maxLen
    · rw [if_pos hgt] at hseg
      have hbound : ∀ si : ℕ, si ≤ maxLen →
          (trimStart (remaining.drop si)).length < remaining.length →
          seg ∈ trimStartAndEnd (remaining.take si)
              :: splitLoop maxLen fuel (trimStart (remaining.drop si)) →
          seg.length ≤ maxLen := by
        intro si hsile hdec hmem
        rcases List.mem_cons.mp hmem with hhd | htl
        · subst hhd
          calc (trimStartAndEnd (remaining.take si)).length
              ≤ (remaining.take si).length := length_trimStartAndEnd_le _
            _ ≤ si := by rw [List.length_take]; omega
            _ ≤ maxLen := hsile
        · exact ih (trimStart (remaining.drop si)) (by omega) seg htl
      rcases hfs : findSpaceDown remaining maxLen with _ | j
      · rw [hfs] at hseg
        simp only [Option.getD_none] at hseg
        refine hbound maxLen (le_refl _) ?_ hseg
        calc (trimStart (remaining.drop maxLen)).length
            ≤ (remaining.drop maxLen).length := length_trimStart_le _
          _ = remaining.length - maxLen := List.length_drop maxLen remaining
          _ < remaining.length := by omega
      · rw [hfs] at hseg
        simp only [Option.getD_some] at hseg
        have hj : j ≤ maxLen := findSpaceDown_le remaining maxLen j hfs
        refine hbound j hj ?_ hseg
        by_cases h0 : j = 0
        · subst h0
          have hsp : remaining.getD 0 '\x00' = ' ' :=
            findSpaceDown_space remaining maxLen 0 hfs
          cases remaining with
          | nil => simp at hgt
          | cons c t =>
            have hc : c = ' ' := by simpa using hsp
            subst hc
            rw [List.drop_zero, trimStart_cons_ws ' ' t (by decide)]
            calc (trimStart t).length ≤ t.length := length_trimStart_le _
              _ < (' ' :: t).length := by simp
        · calc (trimStart (remaining.drop j)).length
              ≤ (remaining.drop j).length := length_trimStart_le _
            _ = remaining.length - j := List.length_drop j remaining
            _ < remaining.length := by omega
    · rw [if_neg hgt] at hseg
      by_cases hemp : remaining.isEmpty
      · simp [hemp] at hseg
      · rw [if_neg (by simpa using hemp)] at hseg
        rcases List.mem_singleton.mp hseg with rfl
        exact le_trans (length_trimStartAndEnd_le _) (by omega)

/-- C9: for any text and any MaxLen ≥ 1, (i) every segment returned by
    SplitTextByLength has length ≤ MaxLen; (ii) when the text exceeds
    the limit and a space exists at or before index MaxLen, the first
    cut happens at the greatest such space index j — the first emitted
    segment is the (trimmed) prefix of length j; (iii) when no space
    exists in range, the text is force-split exactly at MaxLen. -/
theorem C9_splitTextByLength_spec (text : Str) (maxLen : ℕ) (hm : 1 ≤ maxLen) :
    (∀ seg ∈ splitTextByLength text maxLen, seg.length ≤ maxLen) ∧
    (∀ j, text.length > maxLen → j ≤ maxLen → text.getD j '\x00' = ' ' →
      (∀ k, j < k → k ≤ maxLen → text.getD k '\x00' ≠ ' ') →
      ∃ rest, splitTextByLength text maxLen = trimStartAndEnd (text.take j) :: rest) ∧
    (text.length > maxLen → (∀ k, k ≤ maxLen → text.getD k '\x00' ≠ ' ') →
      ∃ rest, splitTextByLength text maxLen = trimStartAndEnd (text.take maxLen) :: rest) := by
  have hm0 : ¬ maxLen = 0 := by omega
  refine ⟨?_, ?_, ?_⟩
  · intro seg hseg
    unfold splitTextByLength at hseg
    by_cases hemp : text.isEmpty
    · simp [hemp] at hseg
    · rw [if_neg (by simpa using hemp), if_neg hm0] at hseg
      exact splitLoop_length_le maxLen hm text.length text (le_refl _) seg hseg
  · intro j hgt hj hsp hno
    have hemp : text.isEmpty = false := by
      cases text
      · simp at hgt
      · rfl
    have hfuel : ∃ f, text.length = f + 1 := ⟨text.length - 1, by omega⟩
    rcases hfuel with ⟨f, hf⟩
    unfold splitTextByLength
    rw [hemp]
    simp only [Bool.false_eq_true, if_false, if_neg hm0]
    rw [hf, splitLoop, if_pos (hf ▸ hgt)]
    rw [findSpaceDown_eq_some text maxLen j hj hsp hno]
    simp only [Option.getD_some]
    exact ⟨_, rfl⟩
  · intro hgt hno
    have hemp : text.isEmpty = false := by
      cases text
      · simp at hgt
      · rfl
    have hfuel : ∃ f, text.length = f + 1 := ⟨text.length - 1, by omega⟩
    rcases hfuel with ⟨f, hf⟩
    unfold splitTextByLength
    rw [hemp]
    simp only [Bool.false_eq_true, if_false, if_neg hm0]
    rw [hf, splitLoop, if_pos (hf ▸ hgt)]
    rw [findSpaceDown_eq_none text maxLen hno]
    simp only [Option.getD_none]
    exact ⟨_, rfl⟩

/-- C9 witness: the wrapped segment "aaaa bbbb" of the example text
    respects the limit 9. -/
theorem C9_splitTextByLength_witness : (("aaaa bbbb").toList).length ≤ 9 :=
  (C9_splitTextByLength_spec (("aaaa bbbb cccc").toList) 9 (by decide)).1
    (("aaaa bbbb").toList) (by decide)

/- ===== C6 ===== -/

/-- C6 counterexample: the story whose only content line carries an
    unknown parameter key AND a malformed offset value parses with an
    EMPTY diagnostic list — no diagnostic reaches the caller — while the
    line is accepted with the documented defaults. -/
theorem C6_bad_field_no_diagnostic_counterexample :
    (parseStoryFromString c6Input 80).errors = [] ∧
    (parseStoryFromString c6Input 80).ok = true ∧
    ((parseStoryFromString c6Input 80).story.screens.getD 0 {}).lines.map
        (fun l => (l.text, l.pauseDuration, l.speed, l.effect, l.positionOffset)) =
      [(("Hi").toList, .none, .standard, .none, {}),
       ((" ").toList, .none, .standard, .none, {})] := by
  with_unfolding_all decide

/-- The optional-parameter loop body never touches ok, text or anim. -/
theorem applyParamField_basic (acc : AttrResult) (f : Str) :
    (applyParamField acc f).ok = acc.ok ∧ (applyParamField acc f).text = acc.text ∧
    (applyParamField acc f).anim = acc.anim := by
  unfold applyParamField
  dsimp only
  repeat' split
  all_goals exact ⟨rfl, rfl, rfl⟩

/-- Once OutError has been written it stays written through the rest of
    the optional-parameter loop. -/
theorem applyParamField_err_ne (acc : AttrResult) (f : Str) (h : acc.err ≠ none) :
    (applyParamField acc f).err ≠ none := by
  unfold applyParamField
  dsimp only
  repeat' split
  all_goals first | exact h | simp

/-- A bad optional field writes OutError and leaves the four optional
    out-parameters untouched. -/
theorem applyParamField_bad_preserve (acc : AttrResult) (f : Str)
    (h : paramFieldBad f = true) :
    (applyParamField acc f).speed = acc.speed ∧
    (applyParamField acc f).pause = acc.pause ∧
    (applyParamField acc f).effect = acc.effect ∧
    (applyParamField acc f).offset = acc.offset ∧
    (applyParamField acc f).err ≠ none := by
  unfold paramFieldBad at h
  unfold applyParamField
  rcases hsp : splitFirstAt '=' f with _ | ⟨k0, v0⟩
  · exact ⟨rfl, rfl, rfl, rfl, by simp⟩
  · rw [hsp] at h
    dsimp only at h ⊢
    by_cases h1 : (toLowerStr (trimStartAndEnd k0) == ("speed").toList) = true
    · rw [if_pos h1] at h ⊢
      rcases hps : parseSpeed (trimStartAndEnd v0) with _ | sp
      · exact ⟨rfl, rfl, rfl, rfl, by simp⟩
      · rw [hps] at h; simp at h
    · rw [if_neg h1] at h ⊢
      by_cases h2 : (toLowerStr (trimStartAndEnd k0) == ("pause").toList) = true
      · rw [if_pos h2] at h ⊢
        rcases hps : parsePauseDuration (trimStartAndEnd v0) with _ | p
        · exact ⟨rfl, rfl, rfl, rfl, by simp⟩
        · rw [hps] at h; simp at h
      · rw [if_neg h2] at h ⊢
        by_cases h3 : (toLowerStr (trimStartAndEnd k0) == ("effect").toList) = true
        · rw [if_pos h3] at h ⊢
          rcases hps : parseEffectType (trimStartAndEnd v0) with _ | e
          · exact ⟨rfl, rfl, rfl, rfl, by simp⟩
          · rw [hps] at h; simp at h
        · rw [if_neg h3] at h ⊢
          by_cases h4 : (toLowerStr (trimStartAndEnd k0) == ("offset").toList) = true
          · rw [if_pos h4] at h ⊢
            rcases hps : parsePositionOffset (trimStartAndEnd v0) with _ | o
            · exact ⟨rfl, rfl, rfl, rfl, by simp⟩
            · rw [hps] at h; simp at h
          · rw [if_neg h4] at h ⊢
            exact ⟨rfl, rfl, rfl, rfl, by simp⟩

/-- The optional-parameter loop never changes the bool result. -/
theorem foldl_applyParamField_ok (l : List Str) :
    ∀ acc : AttrResult, (l.foldl applyParamField acc).ok = acc.ok := by
  induction l with
  | nil => intro acc; rfl
  | cons f t ih =>
    intro acc
    rw [List.foldl_cons, ih, (applyParamField_basic acc f).1]

/-- A written OutError survives the rest of the loop. -/
theorem foldl_err_ne (l : List Str) :
    ∀ acc : AttrResult, acc.err ≠ none → (l.foldl applyParamField acc).err ≠ none := by
  induction l with
  | nil => intro acc h; exact h
  | cons f t ih =>
    intro acc h
    rw [List.foldl_cons]
    exact ih _ (applyParamField_err_ne acc f h)

/-- Some bad field in the loop guarantees OutError is written. -/
theorem foldl_bad_err (l : List Str) :
    ∀ acc : AttrResult, (∃ f ∈ l, paramFieldBad f = true) →
      (l.foldl applyParamField acc).err ≠ none := by
  induction l with
  | nil =>
    intro acc h
    rcases h with ⟨f, hf, _⟩
    exact absurd hf (List.not_mem_nil f)
  | cons g t ih =>
    intro acc h
    rw [List.foldl_cons]
    rcases h with ⟨f, hf, hbad⟩
    rcases List.mem_cons.mp hf with rfl | hft
    · exact foldl_err_ne t _ (applyParamField_bad_preserve acc f hbad).2.2.2.2
    · exact ih _ ⟨f, hft, hbad⟩

/-- If every field of the loop is bad, the optional out-parameters keep
    their defaults. -/
theorem foldl_all_bad_preserve (l : List Str) :
    ∀ acc : AttrResult, (∀ f ∈ l, paramFieldBad f = true) →
      (l.foldl applyParamField acc).speed = acc.speed ∧
      (l.foldl applyParamField acc).pause = acc.pause ∧
      (l.foldl applyParamField acc).effect = acc.effect ∧
      (l.foldl applyParamField acc).offset = acc.offset := by
  induction l with
  | nil => intro acc _; exact ⟨rfl, rfl, rfl, rfl⟩
  | cons g t ih =>
    intro acc h
    rw [List.foldl_cons]
    have hg := applyParamField_bad_preserve acc g (h g (by simp))
    have ht := ih (applyParamField acc g) (fun f hf => h f (by simp [hf]))
    exact ⟨ht.1.trans hg.1, ht.2.1.trans hg.2.1, ht.2.2.1.trans hg.2.2.1,
           ht.2.2.2.trans hg.2.2.2.1⟩

/-- On a line with at least two fields and non-empty text,
    ParseLineAttributes is the optional-parameter loop run from the
    success record (ok = true, defaults for the optional fields). -/
theorem parseLineAttributes_eq (line : Str) (hf : 2 ≤ (attrFields line).length)
    (ht : (attrFields line).getD 0 [] ≠ []) :
    parseLineAttributes line
      = ((attrFields line).drop 2).foldl applyParamField
          { ok := true,
            text := if eqIC (trimStartAndEnd ((attrFields line).getD 0 []))
                (("[SPACER]").toList) then (" ").toList else (attrFields line).getD 0 [],
            anim := (match parseAnimationType ((attrFields line).getD 1 []) with
                     | some a => a
                     | none => .typewriter),
            speed := .standard, pause := .none, effect := .none, offset := {},
            err := (match parseAnimationType ((attrFields line).getD 1 []) with
                    | some _ => none
                    | none => some (.unknownAnimationType ((attrFields line).getD 1 []))) } := by
  unfold parseLineAttributes
  rw [if_neg (by omega)]
  dsimp only
  split
  · rw [if_neg (by decide)]
    rcases hpa : parseAnimationType ((attrFields line).getD 1 []) with _ | a <;> rfl
  · have hne : ((attrFields line).getD 0 []).isEmpty = false := by
      rcases h0 : (attrFields line).getD 0 [] with _ | ⟨c, t⟩
      · exact absurd h0 ht
      · rfl
    rw [if_neg (by rw [hne]; exact Bool.false_ne_true)]
    rcases hpa : parseAnimationType ((attrFields line).getD 1 []) with _ | a <;> rfl

/-- Splitting a delimiter-free string yields a single field. -/
theorem splitCharKeepAux_length_no_delim (d : Char) :
    ∀ (s acc : Str), (∀ c ∈ s, c ≠ d) → (splitCharKeepAux d acc s).length = 1 := by
  intro s
  induction s with
  | nil => intro acc _; rfl
  | cons c t ih =>
    intro acc h
    unfold splitCharKeepAux
    rw [if_neg (h c (by simp))]
    exact ih (c :: acc) (fun x hx => h x (by simp [hx]))

/-- A line that splits into at least two attribute fields contains a
    pipe. -/
theorem contains_pipe_of_fields (line : Str) (hf : 2 ≤ (attrFields line).length) :
    line.contains '|' = true := by
  cases hP : line.contains '|' with
  | true => rfl
  | false =>
    exfalso
    have hmem : '|' ∉ line := by simpa using hP
    have hnd : ∀ c ∈ line, c ≠ '|' := fun c hc he => hmem (he ▸ hc)
    unfold attrFields splitCharKeep at hf
    rcases line with _ | ⟨c, t⟩
    · simp at hf
    · rw [if_neg (by simp)] at hf
      rw [List.length_map, splitCharKeepAux_length_no_delim '|' (c :: t) [] hnd] at hf
      omega

/-- A non-whitespace character survives dropWhile-by-whitespace. -/
theorem mem_dropWhile_of_neg (p : Char → Bool) (c : Char) (hc : p c = false) :
    ∀ l : List Char, c ∈ l → c ∈ l.dropWhile p := by
  intro l
  induction l with
  | nil => intro h; exact absurd h (List.not_mem_nil c)
  | cons a t ih =>
    intro h
    rw [List.dropWhile_cons]
    split
    · rcases List.mem_cons.mp h with rfl | ht
      · rename_i hpa
        rw [hc] at hpa
        exact absurd hpa (by simp)
      · exact ih ht
    · exact h

/-- A non-whitespace character survives trimming. -/
theorem mem_trimStartAndEnd (c : Char) (s : Str) (hcs : c ∈ s) (hws : isWSChar c = false) :
    c ∈ trimStartAndEnd s := by
  unfold trimStartAndEnd trimEnd trimStart
  have h1 : c ∈ s.dropWhile isWSChar := mem_dropWhile_of_neg _ c hws s hcs
  have h2 : c ∈ (s.dropWhile isWSChar).reverse := List.mem_reverse.mpr h1
  have h3 := mem_dropWhile_of_neg _ c hws _ h2
  exact List.mem_reverse.mpr h3

/-- A pipe-containing line can never equal the [SPACER] token (even
    case-insensitively after trimming). -/
theorem pipe_line_not_spacer (line : Str) (hp : line.contains '|' = true) :
    eqIC (trimStartAndEnd line) (("[SPACER]").toList) = false := by
  cases hE : eqIC (trimStartAndEnd line) (("[SPACER]").toList) with
  | false => rfl
  | true =>
    exfalso
    have hmem : '|' ∈ line := by simpa using hp
    have htr : '|' ∈ trimStartAndEnd line := mem_trimStartAndEnd '|' line hmem (by decide)
    have hlow : Char.toLower '|' ∈ toLowerStr (trimStartAndEnd line) :=
      List.mem_map_of_mem Char.toLower htr
    have heq : toLowerStr (trimStartAndEnd line) = toLowerStr (("[SPACER]").toList) := by
      unfold eqIC at hE
      simpa using hE
    rw [heq] at hlow
    revert hlow
    decide

/-- CurrentScreen is the last screen: modifying it through modifyLast is
    visible through lastScreenD. -/
theorem lastScreenD_modifyLast (f : StoryScreen → StoryScreen) :
    ∀ l : List StoryScreen, l ≠ [] → lastScreenD (modifyLast f l) = f (lastScreenD l)
  | [], h => absurd rfl h
  | [s], _ => rfl
  | a :: b :: u, _ => by
    have ih := lastScreenD_modifyLast f (b :: u) (by simp)
    show lastScreenD (a :: modifyLast f (b :: u)) = f (lastScreenD (b :: u))
    rcases hml : modifyLast f (b :: u) with _ | ⟨x, y⟩
    · cases u <;> simp [modifyLast] at hml
    · rw [hml] at ih
      exact ih

/-- C6 amended: a pipe-delimited content line reaching the screen-content
    parser with ≥ 2 fields and non-empty text, at least one bad optional
    field (unknown key, malformed key=value shape, or unparsable value),
    and not taken by an earlier branch (it does not start with '@'), IS
    accepted: its output Lines are appended to the current screen, the
    attribute parser records a diagnostic internally (OutError is set),
    but the diagnostic list of ParseStoryFromString is left unchanged —
    the message is dropped because the line parse reports success.  When
    every optional field is bad the optional attributes keep their
    documented defaults (Standard speed, None pause, None effect, zero
    offset). -/
theorem C6_bad_field_amended (maxLen : ℕ) (st : ParserSt) (n : ℕ) (line : Str)
    (hscr : st.screens ≠ [])
    (hat : startsWithStr (("@").toList) line = false)
    (hf : 2 ≤ (attrFields line).length)
    (ht : (attrFields line).getD 0 [] ≠ [])
    (hbad : ∃ f ∈ (attrFields line).drop 2, paramFieldBad f = true) :
    c6Conclusion maxLen st n line := by
  have hpipe : line.contains '|' = true := contains_pipe_of_fields line hf
  have heq := parseLineAttributes_eq line hf ht
  have hok : (parseLineAttributes line).ok = true := by
    rw [heq, foldl_applyParamField_ok]
  have herr : (parseLineAttributes line).err ≠ none := by
    rw [heq]
    exact foldl_bad_err _ _ hbad
  have hnospacer := pipe_line_not_spacer line hpipe
  have hmeta : parseMetadataLine line st.screenMeta = none := by
    unfold parseMetadataLine
    rw [if_pos hpipe]
  have hscremp : st.screens.isEmpty = false := by
    rcases hsc : st.screens with _ | _
    · exact absurd hsc hscr
    · rfl
  have hstep : screenContentStep maxLen st n line = screenContentRest maxLen st n line := by
    unfold screenContentStep
    rw [if_neg (by rw [hscremp]; exact Bool.false_ne_true)]
    dsimp only
    rw [hmeta]
    split <;> rfl
  have hred : screenContentStep maxLen st n line =
      { st with
          screens := modifyLast (fun sc => { sc with lines := sc.lines ++
              (processTextToLines (parseLineAttributes line).text
                (parseLineAttributes line).anim (parseLineAttributes line).speed
                (parseLineAttributes line).pause (parseLineAttributes line).effect
                (parseLineAttributes line).offset
                (st.pending.foldl (fun acc p =>
                  processTextToLines p (parseLineAttributes line).anim
                    (parseLineAttributes line).speed .none (parseLineAttributes line).effect
                    (parseLineAttributes line).offset acc maxLen) []) maxLen
                ++ [spacerLine]) }) st.screens,
          pending := [] } := by
    rw [hstep]
    unfold screenContentRest
    rw [if_neg (by rw [hat]; exact Bool.false_ne_true)]
    rw [if_neg (by rw [hnospacer]; exact Bool.false_ne_true)]
    rw [if_pos hpipe]
    dsimp only
    rw [if_pos hok]
  unfold c6Conclusion
  refine ⟨?_, hok, herr, ?_, ?_⟩
  · rw [hred]
  · rw [hred]
    refine ⟨processTextToLines (parseLineAttributes line).text (parseLineAttributes line).anim
        (parseLineAttributes line).speed (parseLineAttributes line).pause
        (parseLineAttributes line).effect (parseLineAttributes line).offset
        (st.pending.foldl (fun acc p =>
          processTextToLines p (parseLineAttributes line).anim (parseLineAttributes line).speed
            .none (parseLineAttributes line).effect (parseLineAttributes line).offset acc maxLen)
          []) maxLen ++ [spacerLine], ?_, ?_⟩
    · dsimp only
      rw [lastScreenD_modifyLast _ st.screens hscr]
    · simp
  · intro hall
    rw [heq]
    exact ⟨(foldl_all_bad_preserve _ _ hall).1, (foldl_all_bad_preserve _ _ hall).2.1,
           (foldl_all_bad_preserve _ _ hall).2.2.1, (foldl_all_bad_preserve _ _ hall).2.2.2⟩

/-- C6 witness: the amended theorem applied inside a concrete screen to
    the line "Hi | typewriter | bogus=1". -/
theorem C6_bad_field_witness :
    c6Conclusion 80 c6St 4 (("Hi | typewriter | bogus=1").toList) :=
  C6_bad_field_amended 80 c6St 4 (("Hi | typewriter | bogus=1").toList)
    (by decide) (by decide) (by decide) (by decide) (by decide)

/- ===== C10 ===== -/

/-- The pause keyword table never yields Wait. -/
theorem parsePauseDuration_no_wait (v : Str) (p : PauseKind)
    (h : parsePauseDuration v = some p) : p ≠ .wait := by
  unfold parsePauseDuration at h
  dsimp only at h
  split_ifs at h <;> injection h with h' <;> subst h' <;> decide

/-- The optional-parameter loop body preserves "pause is not Wait". -/
theorem applyParamField_pause_no_wait (acc : AttrResult) (f : Str)
    (h : acc.pause ≠ .wait) : (applyParamField acc f).pause ≠ .wait := by
  unfold applyParamField
  dsimp only
  repeat' split
  all_goals first
    | exact h
    | (rename_i hps; exact parsePauseDuration_no_wait _ _ hps)

/-- The whole optional-parameter loop preserves "pause is not Wait". -/
theorem foldl_pause_no_wait (l : List Str) :
    ∀ acc : AttrResult, acc.pause ≠ .wait →
      (l.foldl applyParamField acc).pause ≠ .wait := by
  induction l with
  | nil => intro acc h; exact h
  | cons f t ih =>
    intro acc h
    rw [List.foldl_cons]
    exact ih _ (applyParamField_pause_no_wait acc f h)

/-- ParseLineAttributes never reports the Wait pause kind. -/
theorem parseLineAttributes_pause_no_wait (line : Str) :
    (parseLineAttributes line).pause ≠ .wait := by
  unfold parseLineAttributes
  dsimp only
  repeat' split
  all_goals first
    | exact fun hcon => PauseKind.noConfusion hcon
    | exact foldl_pause_no_wait _ _ (fun hcon => PauseKind.noConfusion hcon)

/-- ProcessTextToLines only emits the requested pause or LineBreak, so a
    non-Wait request keeps the whole accumulated list free of Wait. -/
theorem processTextToLines_no_wait (text : Str) (anim : Anim) (speed : Speed)
    (pause : PauseKind) (effect : Effect) (offset : Vec2) (outLines : List StoryLine)
    (maxLen : ℕ) (hp : pause ≠ .wait) (ho : outLines.all lineNoWait = true) :
    (processTextToLines text anim speed pause effect offset outLines maxLen).all lineNoWait
      = true := by
  unfold processTextToLines
  dsimp only
  rw [List.all_append, ho, Bool.true_and, List.all_eq_true]
  intro l hl
  rw [List.mem_map] at hl
  rcases hl with ⟨i, _, rfl⟩
  unfold lineNoWait
  dsimp only
  have hgen : ∀ (b : Prop) (inst : Decidable b),
      ((if b then pause else PauseKind.lineBreak) != PauseKind.wait) = true := by
    intro b inst
    split
    · simpa using hp
    · decide
  exact hgen _ _

/-- Folding ProcessTextToLines with a None pause over the continuation
    buffer keeps the accumulated lines free of Wait. -/
theorem foldl_processTextToLines_no_wait (maxLen : ℕ) (anim : Anim) (speed : Speed)
    (effect : Effect) (offset : Vec2) :
    ∀ (pending : List Str) (acc : List StoryLine), acc.all lineNoWait = true →
      (pending.foldl
        (fun acc p => processTextToLines p anim speed .none effect offset acc maxLen)
        acc).all lineNoWait = true := by
  intro pending
  induction pending with
  | nil => intro acc h; exact h
  | cons p t ih =>
    intro acc h
    rw [List.foldl_cons]
    exact ih _ (processTextToLines_no_wait p anim speed .none effect offset acc maxLen
      (by decide) h)

/-- Screen-metadata application never touches a screen's lines. -/
theorem applyScreenMeta_lines (m : SMap) (sc : StoryScreen) :
    (applyScreenMeta m sc).lines = sc.lines := by
  unfold applyScreenMeta
  dsimp only
  repeat' split
  all_goals rfl

/-- Modifying the last screen with a lines-invariant-preserving function
    preserves the whole-list invariant. -/
theorem screensNoWait_modifyLast (f : StoryScreen → StoryScreen)
    (hf : ∀ sc, sc.lines.all lineNoWait = true → (f sc).lines.all lineNoWait = true) :
    ∀ ss : List StoryScreen, screensNoWait ss = true →
      screensNoWait (modifyLast f ss) = true
  | [], h => h
  | [a], h => by
    unfold screensNoWait at h ⊢
    show ([f a].all (fun sc => sc.lines.all lineNoWait)) = true
    simp only [List.all_cons, List.all_nil, Bool.and_true] at h ⊢
    exact hf a h
  | a :: b :: u, h => by
    unfold screensNoWait at h ⊢
    show ((a :: modifyLast f (b :: u)).all (fun sc => sc.lines.all lineNoWait)) = true
    simp only [List.all_cons, Bool.and_eq_true] at h ⊢
    refine ⟨h.1, ?_⟩
    have := screensNoWait_modifyLast f hf (b :: u)
      (by unfold screensNoWait; simp only [List.all_cons, Bool.and_eq_true]; exact h.2)
    unfold screensNoWait at this
    simpa using this

/-- Appending a default (empty) screen preserves the invariant. -/
theorem screensNoWait_append_default (ss : List StoryScreen)
    (h : screensNoWait ss = true) :
    screensNoWait (ss ++ [({} : StoryScreen)]) = true := by
  unfold screensNoWait at h ⊢
  rw [List.all_append, h, Bool.true_and]
  decide

/-- The ScreenContent case of the parse loop preserves the invariant. -/
theorem screenContentStep_no_wait (maxLen : ℕ) (st : ParserSt) (n : ℕ) (line : Str)
    (h : screensNoWait st.screens = true) :
    screensNoWait (screenContentStep maxLen st n line).screens = true := by
  unfold screenContentStep screenContentRest
  dsimp only
  repeat' split
  all_goals first
    | exact h
    | (refine screensNoWait_modifyLast _ ?_ st.screens h
       intro sc hsc
       dsimp only
       first
        | exact hsc
        | (rw [applyScreenMeta_lines]; exact hsc)
        | (rw [List.all_append, hsc, Bool.true_and]; decide)
        | (rw [List.all_append, hsc, Bool.true_and, List.all_append, Bool.and_eq_true]
           refine ⟨?_, by decide⟩
           exact processTextToLines_no_wait _ _ _ _ _ _ _ _
             (parseLineAttributes_pause_no_wait line)
             (foldl_processTextToLines_no_wait maxLen _ _ _ _ st.pending [] rfl)))

/-- One parse-loop iteration preserves the invariant. -/
theorem parseOneLine_no_wait (maxLen : ℕ) (st : ParserSt) (n : ℕ) (raw : Str)
    (h : screensNoWait st.screens = true) :
    screensNoWait (parseOneLine maxLen st n raw).screens = true := by
  unfold parseOneLine
  dsimp only
  repeat' split
  all_goals first
    | exact h
    | exact screensNoWait_append_default st.screens h
    | exact screenContentStep_no_wait maxLen st n _ h

/-- C10: every Line in the Story returned by ParseStoryFromString has a
    pause kind other than Wait — the pause keyword table only produces
    None/Short/Standard/Long, wrapping introduces only LineBreak, and
    spacer lines carry None, so the Wait member of the enumeration is
    never produced by parsing. -/
theorem C10_no_wait_pause_from_parsing (input : Str) (maxLen : ℕ) :
    ((parseStoryFromString input maxLen).story.screens.all
      (fun sc => sc.lines.all (fun l => l.pauseDuration != PauseKind.wait))) = true := by
  have hmain : ∀ (ls : List Str) (st : ParserSt) (n : ℕ), screensNoWait st.screens = true →
      screensNoWait (parseLinesGo maxLen st n ls).screens = true := by
    intro ls
    induction ls with
    | nil => intro st n h; exact h
    | cons l t ih =>
      intro st n h
      exact ih _ _ (parseOneLine_no_wait maxLen st n l h)
  have h := hmain (splitIntoLines input) {} 1 rfl
  unfold parseStoryFromString
  dsimp only
  split
  · decide
  · split
    · exact h
    · rcases h1 : mapFindIC (parseLinesGo maxLen {} 1 (splitIntoLines input)).storyMeta
          (("title").toList) with _ | t <;>
        rcases h2 : mapFindIC (parseLinesGo maxLen {} 1 (splitIntoLines input)).storyMeta
          (("ost").toList) with _ | o <;>
        dsimp only <;> split <;> exact h
